import Mathlib

/-!
Verification of the shrink-movies pipeline (src/shrink-movies.go).

The Go program is shallowly embedded: filesystem reads and external effects
(ffmpeg, os.Stat, os.Open) are supplied as explicit environment data, and the
mutable filesystem state touched by the program (the temporary working
directory and the source directory) is threaded as an explicit state value.
Machine integers (int64 sizes) are modelled as Nat; the float64 size-ratio
comparison is modelled exactly over ℚ (see `retentionDecide`,
`sizeDecision` and the bridging lemma `sizeDecision_eq_retentionDecide`).
-/

/-! ## Go string primitives used by the program -/

/-- Model of `strings.ToLower`, restricted to the per-character lowering that is all the
program needs (file extensions are ASCII). -/
def goToLower (s : String) : String := ⟨s.data.map Char.toLower⟩

/-- Scan of `filepath.Ext`, over the reversed character list: walk backwards
from the end of the path; stop with no extension at a path separator, and
return `path[i:]` at the first `'.'` found. `acc` holds the characters already
passed, in original order. -/
def extRevAux : List Char → List Char → List Char
  | _, [] => []
  | acc, c :: rest =>
    if c = '/' then []
    else if c = '.' then c :: acc
    else extRevAux (c :: acc) rest

/-- Model of `filepath.Ext`: the suffix beginning at the final dot in the final path
element, empty if there is none. -/
def goExt (path : String) : String := ⟨extRevAux [] path.data.reverse⟩

/-- Model of `filepath.Join(a, b)` for the cleaned, separator-free components the
program builds paths from: join with a single separator. -/
def joinPath (a b : String) : String := a ++ "/" ++ b

/-- Scan of `filepath.Base` over the reversed character list: accumulate
characters from the end up to (not including) the last separator. -/
def baseRevAux : List Char → List Char → List Char
  | acc, [] => acc
  | acc, c :: rest => if c = '/' then acc else baseRevAux (c :: acc) rest

/-- Model of `filepath.Base` for the cleaned, non-empty paths the program handles. -/
def goBase (s : String) : String := ⟨baseRevAux [] s.data.reverse⟩

/-- Drop through the last separator of a reversed character list (helper for
`goDir`). -/
def dirDropRev : List Char → List Char
  | [] => []
  | c :: rest => if c = '/' then rest else dirDropRev rest

/-- Model of `filepath.Dir` for the cleaned paths the program handles: everything
before the last separator, `"."` when the path has no separator. -/
def goDir (s : String) : String :=
  if s.data.contains '/' then ⟨(dirDropRev s.data.reverse).reverse⟩ else "."

/-- The character `fmt`/`time` print for a decimal digit. -/
def digitChar (n : Nat) : Char := Char.ofNat (48 + n)

/-- Numeric value of a decimal digit character (its code point minus `'0'`). -/
def charVal (c : Char) : Nat := c.toNat - 48

/-- Decimal digit characters of `n`, most significant first, computed with a
structural fuel so that it evaluates inside the kernel; `natChars` supplies
fuel that always suffices. -/
def natCharsAux : Nat → Nat → List Char
  | 0, _ => []
  | fuel+1, n => if n < 10 then [digitChar n] else natCharsAux fuel (n / 10) ++ [digitChar (n % 10)]

/-- Decimal digit characters of `n`, most significant first. -/
def natChars (n : Nat) : List Char := natCharsAux (n + 1) n

/-- Model of `fmt.Sprintf("%0wd", n)`: the decimal digits of `n`, left-padded with
zeros to width `w` (wider numbers keep all their digits). -/
def pad (w n : Nat) : String :=
  ⟨List.replicate (w - (natChars n).length) '0' ++ natChars n⟩

/-! ## Timestamps (time.Time, getFileModTime) -/

/-- The components of a `time.Time` that the program observes: the calendar
fields down to seconds (sub-second precision and location never influence any
decision the program makes). -/
structure GoTime where
  year : Nat
  month : Nat
  day : Nat
  hour : Nat
  minute : Nat
  second : Nat
deriving DecidableEq

/-- The zero `time.Time` (what `time.Parse` leaves behind when it errors and
the error is discarded): January 1 of year 1, 00:00:00. -/
def goZeroTime : GoTime := ⟨1, 1, 1, 0, 0, 0⟩

/-- Gregorian leap-year rule, as implemented by package `time`. -/
def isLeapYear (y : Nat) : Bool := y % 4 = 0 && (y % 100 != 0 || y % 400 = 0)

/-- Days in a month, as validated by `time.Parse`. -/
def daysInMonth (y m : Nat) : Nat :=
  if m = 2 then (if isLeapYear y then 29 else 28)
  else if m = 4 || m = 6 || m = 9 || m = 11 then 30
  else 31

/-- Model of `time.Parse("20060102", s)`: eight decimal digits read as year, month,
day; `none` models the error return (wrong shape, non-digits, or an
out-of-range month/day). A successful parse has a zero time-of-day. -/
def parseYYYYMMDD (s : String) : Option GoTime :=
  match s.data with
  | [y3, y2, y1, y0, m1, m0, d1, d0] =>
    if y3.isDigit && y2.isDigit && y1.isDigit && y0.isDigit
        && m1.isDigit && m0.isDigit && d1.isDigit && d0.isDigit then
      let y := 1000 * charVal y3 + 100 * charVal y2 + 10 * charVal y1 + charVal y0
      let m := 10 * charVal m1 + charVal m0
      let d := 10 * charVal d1 + charVal d0
      if 1 ≤ m && m ≤ 12 && 1 ≤ d && d ≤ daysInMonth y m then some ⟨y, m, d, 0, 0, 0⟩
      else none
    else none
  | _ => none

/-- The regular expression `^(\d{8})_.*` of `getFileModTime`: it matches the
given string exactly when the string starts with eight ASCII digits followed
by an underscore (`.*` always matches, possibly emptily). Note the pattern is
anchored at the start of the *whole string handed to the function*, which in
this program is a full path, not a bare file name. -/
def matchesDateRegex (s : String) : Bool :=
  match s.data with
  | c0 :: c1 :: c2 :: c3 :: c4 :: c5 :: c6 :: c7 :: c8 :: _ =>
    c0.isDigit && c1.isDigit && c2.isDigit && c3.isDigit
      && c4.isDigit && c5.isDigit && c6.isDigit && c7.isDigit && c8 = '_'
  | _ => false

/-- Model of `getFileModTime` (src/shrink-movies.go:19-37). `fsMtime` is the result of
`os.Stat(fileName).ModTime()`: `some t` when the stat succeeds, `none` when it
fails (then the fixed sentinel 2000-01-01 00:00:00 is returned). When the
regex matches, the first eight characters are parsed with
`time.Parse("20060102", ·)` and its error is discarded (`date, _ := ...`), so
an invalid calendar date yields the zero `time.Time`. -/
def getFileModTime (fileName : String) (fsMtime : Option GoTime) : GoTime :=
  if matchesDateRegex fileName then
    match parseYYYYMMDD ⟨fileName.data.take 8⟩ with
    | some date => date
    | none => goZeroTime
  else
    match fsMtime with
    | some t => t
    | none => ⟨2000, 1, 1, 0, 0, 0⟩

/-- Model of `modTime.Format("20060102_150405")`: four-digit year, then two-digit
month, day, an underscore, and two-digit hour, minute, second. -/
def goFormatStamp (t : GoTime) : String :=
  pad 4 t.year ++ pad 2 t.month ++ pad 2 t.day ++ "_"
    ++ pad 2 t.hour ++ pad 2 t.minute ++ pad 2 t.second

/-! ## getFileSize (src/shrink-movies.go:40-49) -/

/-- The `os.FileInfo` data the program reads. -/
structure GoFileInfo where
  size : Int
deriving DecidableEq

/-- Environment for one `getFileSize` call: whether `os.Open` succeeds, and
the size `Stat` reports when it does. -/
structure OpenEnv where
  openOk : Bool
  statSize : Int
deriving DecidableEq

/-- Model of `(*os.File).Stat`: on a nil receiver (the `*os.File` a failed `os.Open`
returns) it safely returns `(nil, ErrInvalid)` without faulting, modelled as
`none`; on a valid handle it returns the file's info. -/
def goFileStat (file : Option GoFileInfo) : Option GoFileInfo :=
  match file with
  | some info => some info
  | none => none

/-- Model of `getFileSize` (src/shrink-movies.go:40-49). On `os.Open` failure the code
logs the error and continues with the nil handle: `file.Stat()` returns a nil
`FileInfo` with an error the code discards (`fileInfo, _ :=`), and
`fileInfo.Size()` is then a method call on a nil interface value — a runtime
nil-pointer panic, modelled as `none`. `some n` models a normal return. -/
def getFileSize (env : OpenEnv) : Option Int :=
  let file : Option GoFileInfo := if env.openOk then some ⟨env.statSize⟩ else none
  match goFileStat file with
  | some info => some info.size
  | none => none

/-! ## IsMovie and the directory walk (src/shrink-movies.go:137-163) -/

/-- Model of `IsMovie` (src/shrink-movies.go:137-140): case-insensitive test of the
file extension against the six recognized movie extensions. -/
def IsMovie (fileName : String) : Bool :=
  let fileExt := goToLower (goExt fileName)
  fileExt == ".mpg" || fileExt == ".mpeg" || fileExt == ".avi"
    || fileExt == ".mp4" || fileExt == ".3gp" || fileExt == ".mov"

mutual
/-- One entry of a directory listing: a plain file, a directory whose
`ioutil.ReadDir` succeeds with the given children, or a directory whose
`ReadDir` fails (`badDir`). -/
inductive FsNode where
  | file (name : String) : FsNode
  | dir (name : String) (children : FsTree) : FsNode
  | badDir (name : String) : FsNode
deriving DecidableEq
/-- A directory listing, in the order `ReadDir` yields it. -/
inductive FsTree where
  | nil : FsTree
  | cons (head : FsNode) (tail : FsTree) : FsTree
deriving DecidableEq
end

/-- Outcome of the walk: the collected file list, process termination through
`log.Fatal` (a directory could not be listed), or a runtime index-out-of-range
fault (`dirName[0]` on an empty name). -/
inductive WalkResult where
  | ok (files : List String) : WalkResult
  | fatal : WalkResult
  | fault : WalkResult
deriving DecidableEq

mutual
/-- The body of the `for _, f := range files` loop of `addFilesToList`
(src/shrink-movies.go:149-162) for one entry: a directory entry is skipped
when its name starts with `'.'` (the unguarded `dirName[0]` faults on an empty
name) and recursed into otherwise — recursing into an unlistable directory
hits `log.Fatal` (line 146); a file entry is appended when `IsMovie` accepts
its name. -/
def walkNode (dirPath : String) (e : FsNode) (acc : List String) : WalkResult :=
  match e with
  | .file name => .ok (if IsMovie name then acc ++ [joinPath dirPath name] else acc)
  | .dir name children =>
    match name.data with
    | [] => .fault
    | c :: _ =>
      if c = '.' then .ok acc
      else walkTree (joinPath dirPath name) children acc
  | .badDir name =>
    match name.data with
    | [] => .fault
    | c :: _ => if c = '.' then .ok acc else .fatal
/-- The loop of `addFilesToList` over a whole listing, threading the
accumulated file list and stopping at the first fatal/faulting entry. -/
def walkTree (dirPath : String) (ts : FsTree) (acc : List String) : WalkResult :=
  match ts with
  | .nil => .ok acc
  | .cons e rest =>
    match walkNode dirPath e acc with
    | .ok acc2 => walkTree dirPath rest acc2
    | r => r
end

/-- Model of `addFilesToList` (src/shrink-movies.go:143-163) entered at the root:
`ReadDir` of the root itself may fail (`none`), which is fatal. -/
def addFilesToList (inDirName : String) (rootListing : Option FsTree) : WalkResult :=
  match rootListing with
  | none => WalkResult.fatal
  | some ts => walkTree inDirName ts []

/-! ## Retention policy and destination names (src/shrink-movies.go:101-134) -/

/-- The two outcomes of the size-ratio check at line 124. -/
inductive Decision where
  | Replace : Decision
  | Discard : Decision
deriving DecidableEq

/-- The retention policy at line 124: replace exactly when
`ratio < 0.93`. The float64 comparison is modelled exactly over ℚ; for the
size pairs the program produces the two agree (0.93 itself rounds to the
float64 constant the code compares against, and the comparison direction is
preserved). -/
def retentionDecide (ratio : ℚ) : Decision :=
  if ratio < 93/100 then .Replace else .Discard

/-- The same check as computed from the two byte sizes of lines 121-123,
in kernel-computable integer form: for `inSize > 0`,
`outSize/inSize < 93/100 ↔ 100*outSize < 93*inSize`
(`sizeDecision_eq_retentionDecide`). `inSize = 0` makes the float64 quotient
`+Inf` or `NaN`, and both fail a `< 0.93` test, so the decision is Discard. -/
def sizeDecision (inSize outSize : Nat) : Decision :=
  if inSize ≠ 0 ∧ 100 * outSize < 93 * inSize then .Replace else .Discard

/-- The suffix after the timestamp in the `i`-th candidate destination name:
`".mp4"` first, then `"_%04d.mp4"` for `i = 1, 2, ...`
(src/shrink-movies.go:105,110). -/
def candSuffix : Nat → String
  | 0 => ".mp4"
  | i+1 => "_" ++ pad 4 (i+1) ++ ".mp4"

/-- The `i`-th candidate destination path tried by the loop at
src/shrink-movies.go:106-111. -/
def candidate (tmpDir stamp : String) (i : Nat) : String :=
  joinPath tmpDir (stamp ++ candSuffix i)

/-- The `for i := 1; ; i++` existence-probing loop: try candidates in order,
returning the first whose path does not exist in the working directory.
`present` is the set of paths currently existing in `tmpDir`. The Go loop is
unbounded; the fuel `present.length + 1` used by `chooseDestName` always
suffices because the candidates are pairwise distinct, so the two agree. -/
def chooseAux (tmpDir stamp : String) (present : List String) : Nat → Nat → String
  | i, 0 => candidate tmpDir stamp i
  | i, fuel+1 =>
    if candidate tmpDir stamp i ∈ present then chooseAux tmpDir stamp present (i+1) fuel
    else candidate tmpDir stamp i

/-- The destination name `processFile` settles on (lines 105-111). -/
def chooseDestName (tmpDir stamp : String) (present : List String) : String :=
  chooseAux tmpDir stamp present 0 (present.length + 1)

/-! ## processFile, swapFiles, process (src/shrink-movies.go:77-175) -/

/-- One file of the source directory tree as the model observes it: its path,
its content (an opaque byte-content identifier — two files are byte-for-byte
equal exactly when their identifiers are equal), and its modification time. -/
structure SrcEntry where
  path : String
  bytes : Nat
  mtime : GoTime
deriving DecidableEq

/-- The filesystem state the program mutates: the set of paths existing in
the temporary working directory, and the source directory's files. -/
structure PState where
  tmp : List String
  src : List SrcEntry
deriving DecidableEq

/-- External-world data for one `processFile` call: the stat mtime of the
source file (`none` = stat failure), whether ffmpeg succeeds, the two sizes
`getFileSize` reports at lines 121-122, and the content identifier of the
transcoded output. -/
structure FileEnv where
  fsMtime : Option GoTime
  ffmpegOk : Bool
  inSize : Nat
  outSize : Nat
  outBytes : Nat
deriving DecidableEq

/-- Model of `os.Chtimes(p, t, t)` on the source directory: rewrite the mtime of the
entry at `p`. -/
def chtimes (p : String) (t : GoTime) (src : List SrcEntry) : List SrcEntry :=
  src.map (fun e => if e.path = p then ⟨e.path, e.bytes, t⟩ else e)

/-- Model of `swapFiles` (src/shrink-movies.go:77-98) given the transcoded content
`outBytes`: the copy of `inFile` into the fresh swap directory is removed
again with the whole swap directory (net: no effect); `inFile` is removed
from the source directory; `outFile` is copied to
`Dir(inFile)/Base(outFile)` (its mtime is set by the caller immediately
afterwards, so the creation-time value is never observed and the entry is
created with its final content); `outFile` is removed from the working
directory. Returns the new path together with the updated source-directory
and working-directory states. -/
def swapFiles (inFile outFile : String) (outBytes : Nat) (mt : GoTime)
    (src : List SrcEntry) (tmp : List String) : String × List SrcEntry × List String :=
  let src1 := src.filter (fun e => e.path ≠ inFile)
  let destFileName := joinPath (goDir inFile) (goBase outFile)
  let src2 := src1.filter (fun e => e.path ≠ destFileName) ++ [⟨destFileName, outBytes, mt⟩]
  let tmp2 := tmp.filter (fun n => n ≠ outFile)
  (destFileName, src2, tmp2)

/-- Result of one `processFile` call: the new filesystem state, the
destination name the worker computed, and whether the call returned an
error. -/
structure PFOut where
  st : PState
  dest : String
  err : Bool
deriving DecidableEq

/-- Model of `processFile` (src/shrink-movies.go:101-134). The timestamp is resolved,
a destination name under `tmpDir` is chosen, ffmpeg is run (on failure the
error is logged and returned with no state change); on success the output
exists in the working directory, the size ratio is computed, and on
`ratio < 0.93` the original is replaced through `swapFiles` and the new
file's mtime set to the resolved timestamp via `os.Chtimes`. `outDir` is
bound but — exactly as in the Go source — never read. -/
def processFile (sourceFile outDir tmpDir : String) (env : FileEnv) (st : PState) : PFOut :=
  let modTime := getFileModTime sourceFile env.fsMtime
  let destFile := chooseDestName tmpDir (goFormatStamp modTime) st.tmp
  if env.ffmpegOk then
    let tmp1 := st.tmp ++ [destFile]
    match sizeDecision env.inSize env.outSize with
    | .Replace =>
      let r := swapFiles sourceFile destFile env.outBytes modTime st.src tmp1
      let src2 := chtimes r.1 modTime r.2.1
      ⟨⟨r.2.2, src2⟩, destFile, false⟩
    | .Discard => ⟨⟨tmp1, st.src⟩, destFile, false⟩
  else
    ⟨st, destFile, true⟩

/-- Start/finish events of one `processFile` invocation, used to express
when workers are simultaneously active. -/
inductive Ev where
  | start (f : String) : Ev
  | fin (f : String) : Ev
deriving DecidableEq

/-- Result of a whole run of the dispatch loop: final filesystem state, the
event trace of worker activity, and the destination names assigned in
dispatch order. -/
structure RunOut where
  st : PState
  evs : List Ev
  names : List String
deriving DecidableEq

/-- The dispatch loop of `process` (src/shrink-movies.go:172-174): each file
is handed to `processFile` in list order; the call is synchronous, so its
start and finish events bracket nothing else; a returned error is ignored and
the loop continues with the next file. -/
def processList (outDirName tmpDir : String) (envOf : String → FileEnv) :
    List String → PState → RunOut
  | [], st => ⟨st, [], []⟩
  | f :: rest, st =>
    let out := processFile f outDirName tmpDir (envOf f) st
    let r := processList outDirName tmpDir envOf rest out.st
    ⟨r.st, Ev.start f :: Ev.fin f :: r.evs, out.dest :: r.names⟩

/-- Result of `process` (src/shrink-movies.go:166-175): traversal can end the
process via `log.Fatal` or fault on an empty directory name; otherwise every
collected file is dispatched and the run completes. -/
inductive RunResult where
  | fatal : RunResult
  | fault : RunResult
  | done (out : RunOut) : RunResult
deriving DecidableEq

/-- Model of `process` (src/shrink-movies.go:166-175): collect the file list with
`addFilesToList`, then dispatch each file. The working directory starts
empty (`main` creates a fresh `ioutil.TempDir` per run, line 187). -/
def runProcess (inDirName outDirName tmpDir : String) (rootListing : Option FsTree)
    (envOf : String → FileEnv) (src : List SrcEntry) : RunResult :=
  match addFilesToList inDirName rootListing with
  | .fatal => .fatal
  | .fault => .fault
  | .ok files => .done (processList outDirName tmpDir envOf files ⟨[], src⟩)

/-! ## Specification-side definitions -/

mutual
/-- Written from the spec's words for claim C7: the movie files (per the File
Classifier) contributed by one entry, where a subdirectory whose name begins
with `'.'` contributes nothing and any other subdirectory contributes the
files reachable inside it. -/
def specMoviesNode (dirPath : String) (e : FsNode) : List String :=
  match e with
  | .file name => if IsMovie name then [joinPath dirPath name] else []
  | .dir name children =>
    if name.data.head? = some '.' then []
    else specMoviesTree (joinPath dirPath name) children
  | .badDir _ => []
/-- Written from the spec's words for claim C7: the movie files reachable
from a listing without passing through a hidden subdirectory, in depth-first
traversal order. -/
def specMoviesTree (dirPath : String) (ts : FsTree) : List String :=
  match ts with
  | .nil => []
  | .cons e rest => specMoviesNode dirPath e ++ specMoviesTree dirPath rest
end

mutual
/-- The walk of this entry neither faults nor dies: its name is non-empty,
and if it is a directory that will be entered (not hidden) it is listable and
its children are good in turn. -/
def goodNode : FsNode → Bool
  | .file _ => true
  | .dir name children =>
    !name.isEmpty && (name.data.head? = some '.' || goodTree children)
  | .badDir name => !name.isEmpty && name.data.head? = some '.'
/-- Every entry of the listing is good. -/
def goodTree : FsTree → Bool
  | .nil => true
  | .cons e rest => goodNode e && goodTree rest
end

mutual
/-- Every directory entry name in this entry's subtree is non-empty. -/
def nodeNamesOk : FsNode → Bool
  | .file _ => true
  | .dir name children => !name.isEmpty && treeNamesOk children
  | .badDir name => !name.isEmpty
/-- Every directory entry name in the listing's subtree is non-empty. -/
def treeNamesOk : FsTree → Bool
  | .nil => true
  | .cons e rest => nodeNamesOk e && treeNamesOk rest
end

/-- The event trace the sequential dispatch loop produces. -/
def traceOf : List String → List Ev
  | [] => []
  | f :: rest => Ev.start f :: Ev.fin f :: traceOf rest

/-- Fold step counting active workers: a start adds one, a finish removes
one. -/
def evStep (n : Nat) (e : Ev) : Nat :=
  match e with
  | .start _ => n + 1
  | .fin _ => n - 1

/-- Number of workers active after a prefix of the event trace. -/
def activeAfter (evs : List Ev) : Nat := evs.foldl evStep 0

/-! ## Helper lemmas -/

/-- For positive `inSize` the integer form of the ratio test agrees with the
rational retention policy applied to `outSize/inSize`. -/
theorem sizeDecision_eq_retentionDecide (i o : Nat) (hi : 0 < i) :
    sizeDecision i o = retentionDecide ((o : ℚ) / (i : ℚ)) := by
  have hiq : (0 : ℚ) < (i : ℚ) := by exact_mod_cast hi
  have key : ((o : ℚ) / (i : ℚ) < 93/100) ↔ (100 * o < 93 * i) := by
    rw [div_lt_div_iff₀ hiq (by norm_num : (0:ℚ) < 100)]
    constructor
    · intro h
      have h2 : ((100:ℚ) * o < 93 * i) := by linarith
      exact_mod_cast h2
    · intro h
      have h2 : ((100:ℚ) * o < 93 * i) := by exact_mod_cast h
      linarith
  unfold sizeDecision retentionDecide
  by_cases hc : 100 * o < 93 * i
  · rw [if_pos ⟨by omega, hc⟩, if_pos (key.mpr hc)]
  · rw [if_neg (fun h => hc h.2), if_neg (fun h => hc (key.mp h))]

/-- Two strings with the same character list are equal. -/
theorem string_eq_of_data (s t : String) (h : s.data = t.data) : s = t := by
  cases s
  cases t
  exact congrArg String.mk h

/-- A string whose character list is empty is the empty string. -/
theorem string_eq_empty_of_data (s : String) (hd : s.data = []) : s = "" := by
  cases s
  exact congrArg String.mk hd

/-- Digit characters decode back to their value. -/
theorem charVal_digitChar (n : Nat) (h : n < 10) : charVal (digitChar n) = n := by
  interval_cases n <;> decide

/-- Reading a digit list back into a number, starting from accumulator `a`. -/
def parseFrom (a : Nat) (l : List Char) : Nat := l.foldl (fun x c => 10 * x + charVal c) a

/-- Decoding the digits produced by `natCharsAux` recovers the number. -/
theorem parseFrom_natCharsAux (fuel : Nat) : ∀ n a, n < fuel →
    parseFrom a (natCharsAux fuel n) = a * 10 ^ (natCharsAux fuel n).length + n := by
  induction fuel with
  | zero => omega
  | succ f ih =>
    intro n a h
    by_cases h10 : n < 10
    · simp [natCharsAux, h10, parseFrom, charVal_digitChar n h10]
      ring
    · have hdiv : n / 10 < n := Nat.div_lt_self (by omega) (by omega)
      have hf : n / 10 < f := by omega
      simp only [natCharsAux, if_neg h10, parseFrom, List.foldl_append, List.foldl_cons,
        List.foldl_nil, List.length_append, List.length_cons, List.length_nil]
      have hrec := ih (n / 10) a hf
      simp only [parseFrom] at hrec
      rw [hrec, charVal_digitChar (n % 10) (Nat.mod_lt n (by omega))]
      rw [pow_succ]
      have := Nat.div_add_mod n 10
      ring_nf
      omega

/-- Leading zero characters do not change the decoded value. -/
theorem parseFrom_replicate_zero (k : Nat) (l : List Char) :
    parseFrom 0 (List.replicate k '0' ++ l) = parseFrom 0 l := by
  induction k with
  | zero => simp
  | succ m ih => simpa [parseFrom, List.replicate_succ, charVal] using ih

/-- Zero-padded decimal rendering is injective: the padded digits decode back
to the number. -/
theorem pad_inj (w : Nat) : Function.Injective (pad w) := by
  intro a b h
  have key : ∀ n : Nat, parseFrom 0 (pad w n).data = n := by
    intro n
    have h1 : (pad w n).data = List.replicate (w - (natChars n).length) '0' ++ natChars n := rfl
    rw [h1, parseFrom_replicate_zero]
    have := parseFrom_natCharsAux (n + 1) n 0 (by omega)
    simpa [natChars] using this
  rw [← key a, ← key b, h]

/-- The character list of the `i`-th candidate destination path. -/
theorem candidate_data (tmpDir stamp : String) (n : Nat) :
    (candidate tmpDir stamp n).data
      = tmpDir.data ++ '/' :: (stamp.data ++ (candSuffix n).data) := by
  simp [candidate, joinPath, String.data_append, List.append_assoc,
    show ("/" : String).data = ['/'] from rfl]

/-- The candidate suffixes `".mp4"`, `"_0001.mp4"`, `"_0002.mp4"`, … are
pairwise distinct. -/
theorem candSuffix_injective : Function.Injective candSuffix := by
  intro a b h
  have hd := congrArg String.data h
  match a, b with
  | 0, 0 => rfl
  | 0, j+1 =>
    simp only [candSuffix, String.data_append,
      show ("_" : String).data = ['_'] from rfl,
      show (".mp4" : String).data = ['.', 'm', 'p', '4'] from rfl,
      List.cons_append, List.nil_append, List.cons.injEq] at hd
    exact absurd hd.1 (by decide)
  | i+1, 0 =>
    simp only [candSuffix, String.data_append,
      show ("_" : String).data = ['_'] from rfl,
      show (".mp4" : String).data = ['.', 'm', 'p', '4'] from rfl,
      List.cons_append, List.nil_append, List.cons.injEq] at hd
    exact absurd hd.1 (by decide)
  | i+1, j+1 =>
    simp only [candSuffix, String.data_append,
      show ("_" : String).data = ['_'] from rfl,
      show (".mp4" : String).data = ['.', 'm', 'p', '4'] from rfl,
      List.cons_append, List.nil_append, List.cons.injEq, true_and] at hd
    have hpad : pad 4 (i+1) = pad 4 (j+1) :=
      string_eq_of_data _ _ (List.append_cancel_right hd)
    have := pad_inj 4 hpad
    omega

/-- Candidate destination paths are pairwise distinct. -/
theorem candidate_injective (tmpDir stamp : String) :
    Function.Injective (candidate tmpDir stamp) := by
  intro a b h
  have hd := congrArg String.data h
  rw [candidate_data, candidate_data] at hd
  have h1 := List.append_cancel_left hd
  injection h1 with hx h2
  have h3 := List.append_cancel_left h2
  exact candSuffix_injective (string_eq_of_data _ _ h3)

mutual
/-- A good entry walks to exactly the accumulated list plus the movie files
the spec assigns to it. -/
theorem walkNode_spec (dirPath : String) (e : FsNode) (acc : List String)
    (h : goodNode e = true) :
    walkNode dirPath e acc = .ok (acc ++ specMoviesNode dirPath e) :=
  match e with
  | .file name => by
    by_cases hm : IsMovie name = true <;> simp [walkNode, specMoviesNode, hm]
  | .dir name children => by
    unfold goodNode at h
    simp only [Bool.and_eq_true, Bool.or_eq_true, Bool.not_eq_true'] at h
    obtain ⟨h1, h2⟩ := h
    rcases hd : name.data with _ | ⟨c, cs⟩
    · rw [string_eq_empty_of_data name hd] at h1
      exact absurd h1 (by decide)
    · by_cases hc : c = '.'
      · simp [walkNode, specMoviesNode, hd, hc]
      · have hg : goodTree children = true := by
          rcases h2 with h3 | h3
          · rw [hd] at h3
            simp at h3
            exact absurd h3 hc
          · exact h3
        have hrec := walkTree_spec (joinPath dirPath name) children acc hg
        simp [walkNode, specMoviesNode, hd, hc, hrec]
  | .badDir name => by
    unfold goodNode at h
    simp only [Bool.and_eq_true, Bool.not_eq_true'] at h
    obtain ⟨h1, h2⟩ := h
    rcases hd : name.data with _ | ⟨c, cs⟩
    · rw [string_eq_empty_of_data name hd] at h1
      exact absurd h1 (by decide)
    · have hc : c = '.' := by
        rw [hd] at h2
        simpa using h2
      simp [walkNode, specMoviesNode, hd, hc]
/-- A good listing walks to exactly the accumulated list plus the movie files
the spec assigns to it, in depth-first order. -/
theorem walkTree_spec (dirPath : String) (ts : FsTree) (acc : List String)
    (h : goodTree ts = true) :
    walkTree dirPath ts acc = .ok (acc ++ specMoviesTree dirPath ts) :=
  match ts with
  | .nil => by simp [walkTree, specMoviesTree]
  | .cons e rest => by
    unfold goodTree at h
    simp only [Bool.and_eq_true] at h
    obtain ⟨h1, h2⟩ := h
    have he := walkNode_spec dirPath e acc h1
    have hr := walkTree_spec dirPath rest (acc ++ specMoviesNode dirPath e) h2
    simp [walkTree, he, hr, specMoviesTree]
end

mutual
/-- With every directory name in the subtree non-empty, walking one entry
never hits the out-of-range index. -/
theorem walkNode_no_fault (dirPath : String) (e : FsNode) (acc : List String)
    (h : nodeNamesOk e = true) :
    walkNode dirPath e acc ≠ .fault :=
  match e with
  | .file name => by simp [walkNode]
  | .dir name children => by
    unfold nodeNamesOk at h
    simp only [Bool.and_eq_true, Bool.not_eq_true'] at h
    obtain ⟨h1, h2⟩ := h
    rcases hd : name.data with _ | ⟨c, cs⟩
    · rw [string_eq_empty_of_data name hd] at h1
      exact absurd h1 (by decide)
    · by_cases hc : c = '.'
      · simp [walkNode, hd, hc]
      · simpa [walkNode, hd, hc] using
          walkTree_no_fault (joinPath dirPath name) children acc h2
  | .badDir name => by
    unfold nodeNamesOk at h
    simp only [Bool.not_eq_true'] at h
    rcases hd : name.data with _ | ⟨c, cs⟩
    · rw [string_eq_empty_of_data name hd] at h
      exact absurd h (by decide)
    · by_cases hc : c = '.' <;> simp [walkNode, hd, hc]
/-- With every directory name in the subtree non-empty, the walk never hits
the out-of-range index. -/
theorem walkTree_no_fault (dirPath : String) (ts : FsTree) (acc : List String)
    (h : treeNamesOk ts = true) :
    walkTree dirPath ts acc ≠ .fault :=
  match ts with
  | .nil => by simp [walkTree]
  | .cons e rest => by
    unfold treeNamesOk at h
    simp only [Bool.and_eq_true] at h
    obtain ⟨h1, h2⟩ := h
    have hn := walkNode_no_fault dirPath e acc h1
    cases hw : walkNode dirPath e acc with
    | ok acc2 => simpa [walkTree, hw] using walkTree_no_fault dirPath rest acc2 h2
    | fatal => simp [walkTree, hw]
    | fault => exact absurd hw hn
end

/-- Every file of the work list is dispatched: one destination name is
recorded per file, regardless of per-file failures. -/
theorem processList_names_length (o t : String) (envOf : String → FileEnv)
    (files : List String) : ∀ st : PState,
    (processList o t envOf files st).names.length = files.length := by
  induction files with
  | nil => intro st; simp [processList]
  | cons f rest ih => intro st; simp [processList, ih]

/-- The event trace of the dispatch loop is the sequential trace of the work
list, independent of the filesystem state. -/
theorem processList_evs (o t : String) (envOf : String → FileEnv)
    (files : List String) : ∀ st : PState,
    (processList o t envOf files st).evs = traceOf files := by
  induction files with
  | nil => intro st; simp [processList, traceOf]
  | cons f rest ih => intro st; simp [processList, traceOf, ih]

/-- In the sequential trace, after any prefix at most one worker is active. -/
theorem activeAfter_traceOf_le_one (files : List String) : ∀ p q : List Ev,
    traceOf files = p ++ q → activeAfter p ≤ 1 := by
  induction files with
  | nil =>
    intro p q h
    have hp : p = [] := by
      cases p with
      | nil => rfl
      | cons e p2 => simp [traceOf] at h
    simp [hp, activeAfter]
  | cons f rest ih =>
    intro p q h
    match p with
    | [] => simp [activeAfter]
    | [e] =>
      cases e <;> simp [activeAfter, evStep]
    | e1 :: e2 :: p2 =>
      simp only [traceOf, List.cons_append, List.cons.injEq] at h
      obtain ⟨he1, he2, hrest⟩ := h
      have hp2 := ih p2 q hrest
      subst he1
      subst he2
      simpa [activeAfter, evStep] using hp2

/-- Both events of every listed file appear in the sequential trace. -/
theorem mem_traceOf (files : List String) (f : String) (hf : f ∈ files) :
    Ev.start f ∈ traceOf files ∧ Ev.fin f ∈ traceOf files := by
  induction files with
  | nil => cases hf
  | cons g rest ih =>
    rcases List.mem_cons.mp hf with h | h
    · subst h
      simp [traceOf]
    · have := ih h
      simp [traceOf, this.1, this.2]

/-- When exactly the first `k` candidates exist in the working directory, the
probing loop (with the always-sufficient fuel of `chooseDestName`) settles on
candidate `k`. -/
theorem chooseAux_firstk (tmpDir stamp : String) (k : Nat) : ∀ fuel i, i ≤ k →
    fuel = k + 1 - i →
    chooseAux tmpDir stamp ((List.range k).map (candidate tmpDir stamp)) i fuel
      = candidate tmpDir stamp k := by
  intro fuel
  induction fuel with
  | zero => intro i hik hf; omega
  | succ f ih =>
    intro i hik hf
    by_cases hlt : i < k
    · have hmem : candidate tmpDir stamp i ∈ (List.range k).map (candidate tmpDir stamp) :=
        List.mem_map.mpr ⟨i, List.mem_range.mpr hlt, rfl⟩
      simp only [chooseAux, if_pos hmem]
      exact ih (i+1) (by omega) (by omega)
    · have hik2 : i = k := by omega
      subst hik2
      have hnmem : candidate tmpDir stamp i ∉ (List.range i).map (candidate tmpDir stamp) := by
        intro hmem
        obtain ⟨j, hj, heq⟩ := List.mem_map.mp hmem
        have hji := candidate_injective tmpDir stamp heq
        rw [hji] at hj
        exact absurd (List.mem_range.mp hj) (by omega)
      simp only [chooseAux, if_neg hnmem]

theorem chooseDestName_firstk (tmpDir stamp : String) (k : Nat) :
    chooseDestName tmpDir stamp ((List.range k).map (candidate tmpDir stamp))
      = candidate tmpDir stamp k := by
  unfold chooseDestName
  have hlen : ((List.range k).map (candidate tmpDir stamp)).length = k := by simp
  rw [hlen]
  exact chooseAux_firstk tmpDir stamp k (k+1) 0 (by omega) (by omega)

theorem processFile_src_unchanged_of_discard (f o t : String) (env : FileEnv) (st : PState)
    (hok : env.ffmpegOk = true)
    (hd : sizeDecision env.inSize env.outSize = Decision.Discard) :
    (processFile f o t env st).st.src = st.src := by
  simp [processFile, hok, hd]

theorem processList_src_unchanged_of_discard (o t : String) (envOf : String → FileEnv)
    (files : List String)
    (h : ∀ f ∈ files, (envOf f).ffmpegOk = true
      ∧ sizeDecision (envOf f).inSize (envOf f).outSize = Decision.Discard) :
    ∀ st : PState, (processList o t envOf files st).st.src = st.src := by
  induction files with
  | nil => intro st; simp [processList]
  | cons f rest ih =>
    intro st
    obtain ⟨hok, hd⟩ := h f (by simp)
    have hrest : ∀ g ∈ rest, (envOf g).ffmpegOk = true
        ∧ sizeDecision (envOf g).inSize (envOf g).outSize = Decision.Discard :=
      fun g hg => h g (by simp [hg])
    have hstep := processFile_src_unchanged_of_discard f o t (envOf f) st hok hd
    simp only [processList]
    rw [ih hrest]
    exact hstep

theorem processFile_outDir_irrelevant (f o1 o2 t : String) (env : FileEnv) (st : PState) :
    processFile f o1 t env st = processFile f o2 t env st := rfl

theorem processList_outDir_irrelevant (o1 o2 t : String) (envOf : String → FileEnv)
    (files : List String) : ∀ st : PState,
    processList o1 t envOf files st = processList o2 t envOf files st := by
  induction files with
  | nil => intro st; rfl
  | cons f rest ih =>
    intro st
    simp only [processList]
    rw [processFile_outDir_irrelevant f o1 o2 t (envOf f) st, ih]

/-- Offset form of mapping over `List.range`. -/
theorem range_map_offset {α : Type} (g : Nat → α) (k n : Nat) :
    (List.range (n+1)).map (fun j => g (k + j))
      = g k :: (List.range n).map (fun j => g (k + 1 + j)) := by
  have hfun : ((fun j => g (k + j)) ∘ Nat.succ) = fun j => g (k + 1 + j) := by
    funext j
    simp only [Function.comp]
    congr 1
    omega
  rw [List.range_succ_eq_map, List.map_cons, List.map_map, hfun]
  rfl

theorem processList_discard_names (outDir tmpDir : String) (envOf : String → FileEnv)
    (t0 : GoTime) (files : List String) :
    ∀ (k : Nat) (st : PState),
    st.tmp = (List.range k).map (candidate tmpDir (goFormatStamp t0)) →
    (∀ f ∈ files, getFileModTime f (envOf f).fsMtime = t0) →
    (∀ f ∈ files, (envOf f).ffmpegOk = true) →
    (∀ f ∈ files, sizeDecision (envOf f).inSize (envOf f).outSize = Decision.Discard) →
    (processList outDir tmpDir envOf files st).names
        = (List.range files.length).map (fun j => candidate tmpDir (goFormatStamp t0) (k + j)) := by
  induction files with
  | nil =>
    intro k st htmp _ _ _
    simp [processList]
  | cons f rest ih =>
    intro k st htmp hmt hok hdisc
    have hmtf := hmt f (by simp)
    have hokf := hok f (by simp)
    have hdiscf := hdisc f (by simp)
    have hchoose : chooseDestName tmpDir (goFormatStamp (getFileModTime f (envOf f).fsMtime)) st.tmp
        = candidate tmpDir (goFormatStamp t0) k := by
      rw [hmtf, htmp]
      exact chooseDestName_firstk tmpDir (goFormatStamp t0) k
    have hstep : processFile f outDir tmpDir (envOf f) st
        = ⟨⟨st.tmp ++ [candidate tmpDir (goFormatStamp t0) k], st.src⟩,
            candidate tmpDir (goFormatStamp t0) k, false⟩ := by
      simp [processFile, hokf, hdiscf, hchoose]
    have htmp2 : (⟨st.tmp ++ [candidate tmpDir (goFormatStamp t0) k], st.src⟩ : PState).tmp
        = (List.range (k+1)).map (candidate tmpDir (goFormatStamp t0)) := by
      simp [htmp, List.range_succ]
    have hrest := ih (k+1) ⟨st.tmp ++ [candidate tmpDir (goFormatStamp t0) k], st.src⟩ htmp2
        (fun g hg => hmt g (by simp [hg])) (fun g hg => hok g (by simp [hg]))
        (fun g hg => hdisc g (by simp [hg]))
    simp only [processList, hstep, hrest, List.length_cons]
    rw [range_map_offset (candidate tmpDir (goFormatStamp t0)) k rest.length]

/-- A successful `time.Parse("20060102", _)` carries a zero time-of-day. -/
theorem parseYYYYMMDD_time_zero (s : String) (d : GoTime)
    (h : parseYYYYMMDD s = some d) :
    d.hour = 0 ∧ d.minute = 0 ∧ d.second = 0 := by
  unfold parseYYYYMMDD at h
  split at h
  · split at h
    · dsimp only at h
      split at h
      · injection h with h2
        subst h2
        exact ⟨rfl, rfl, rfl⟩
      · exact absurd h (by simp)
    · exact absurd h (by simp)
  · exact absurd h (by simp)
/-- Claim C1: for every run with a task list and a concurrency limit `L ≥ 1`,
at most `L` transcode workers are active at any moment — the dispatch loop of
`process` is sequential, so the active-worker count after any prefix of the
run's event trace never exceeds 1, hence never exceeds `L` — and the run
completes only after every dispatched task has completed or failed: the
start and finish events of every listed file lie inside the trace the loop
produces before returning. -/
theorem c1_dispatch_bounds_active_workers_and_awaits_all
    (outDirName tmpDir : String) (envOf : String → FileEnv) (files : List String)
    (st : PState) (L : Nat) (hL : 1 ≤ L) :
    (∀ p q, (processList outDirName tmpDir envOf files st).evs = p ++ q → activeAfter p ≤ L)
    ∧ (∀ f ∈ files, Ev.start f ∈ (processList outDirName tmpDir envOf files st).evs
        ∧ Ev.fin f ∈ (processList outDirName tmpDir envOf files st).evs) := by
  rw [processList_evs]
  exact ⟨fun p q h => le_trans (activeAfter_traceOf_le_one files p q h) hL,
    fun f hf => mem_traceOf files f hf⟩

theorem c1_dispatch_bounds_active_workers_and_awaits_all_witness :
    1 ≤ 1
    ∧ ((∀ p q, (processList "out" "tmp" (fun _ => ⟨none, true, 2, 1, 7⟩)
          ["a.mp4"] ⟨[], []⟩).evs = p ++ q → activeAfter p ≤ 1)
      ∧ (∀ f ∈ ["a.mp4"], Ev.start f ∈ (processList "out" "tmp" (fun _ => ⟨none, true, 2, 1, 7⟩)
          ["a.mp4"] ⟨[], []⟩).evs
        ∧ Ev.fin f ∈ (processList "out" "tmp" (fun _ => ⟨none, true, 2, 1, 7⟩)
          ["a.mp4"] ⟨[], []⟩).evs)) :=
  ⟨by decide, c1_dispatch_bounds_active_workers_and_awaits_all "out" "tmp"
    (fun _ => ⟨none, true, 2, 1, 7⟩) ["a.mp4"] ⟨[], []⟩ 1 (by decide)⟩

/-- Claim C2: the retention policy decides Replace exactly when the size
ratio is strictly below 0.93: `decide(0.5) = Replace`,
`decide(0.9299) = Replace`, `decide(0.93) = Discard`, and in general Replace
holds iff `ratio < 93/100`. -/
theorem c2_retention_threshold_strict :
    retentionDecide (1/2 : ℚ) = Decision.Replace
    ∧ retentionDecide (9299/10000 : ℚ) = Decision.Replace
    ∧ retentionDecide (93/100 : ℚ) = Decision.Discard
    ∧ (∀ r : ℚ, retentionDecide r = Decision.Replace ↔ r < 93/100) := by
  refine ⟨by norm_num [retentionDecide], by norm_num [retentionDecide],
    by norm_num [retentionDecide], ?_⟩
  intro r
  unfold retentionDecide
  by_cases h : r < 93/100 <;> simp [h]

/-- Counterexample to claim C3: the regex of `getFileModTime` is anchored at
the start of the whole string it receives, and `processFile` hands it the
full joined path. For the file `20200101_a.mp4` inside subdirectory `d` the
argument is `d/20200101_a.mp4`, the regex does not match, and the resolver
returns the filesystem mtime (here 1999-05-05 01:02:03) instead of the date
encoded in the filename (2020-01-01 midnight). -/
theorem c3_subdirectory_counterexample :
    getFileModTime "d/20200101_a.mp4" (some ⟨1999, 5, 5, 1, 2, 3⟩) = ⟨1999, 5, 5, 1, 2, 3⟩
    ∧ getFileModTime "d/20200101_a.mp4" (some ⟨1999, 5, 5, 1, 2, 3⟩) ≠ ⟨2020, 1, 1, 0, 0, 0⟩ :=
  ⟨by decide, by decide⟩

/-- Claim C3 as amended: the resolver applies `^(\d{8})_.*` to the whole
string it is given, so whenever that string itself begins with eight digits
and an underscore that encode a valid calendar date, the resolver returns
exactly that date with zero time-of-day, independent of the filesystem
mtime; a path with a directory prefix before the filename does not match and
falls back to the mtime (see the counterexample). -/
theorem c3_amended_date_from_leading_digits (fileName : String) (mt : Option GoTime)
    (d : GoTime) (hm : matchesDateRegex fileName = true)
    (hp : parseYYYYMMDD ⟨fileName.data.take 8⟩ = some d) :
    getFileModTime fileName mt = d ∧ d.hour = 0 ∧ d.minute = 0 ∧ d.second = 0 :=
  ⟨by simp [getFileModTime, hm, hp], parseYYYYMMDD_time_zero _ _ hp⟩

theorem c3_amended_date_from_leading_digits_witness :
    matchesDateRegex "20200101_a.mp4" = true
    ∧ parseYYYYMMDD ⟨("20200101_a.mp4" : String).data.take 8⟩ = some ⟨2020, 1, 1, 0, 0, 0⟩
    ∧ (getFileModTime "20200101_a.mp4" (some ⟨1999, 5, 5, 1, 2, 3⟩) = ⟨2020, 1, 1, 0, 0, 0⟩
      ∧ (⟨2020, 1, 1, 0, 0, 0⟩ : GoTime).hour = 0
      ∧ (⟨2020, 1, 1, 0, 0, 0⟩ : GoTime).minute = 0
      ∧ (⟨2020, 1, 1, 0, 0, 0⟩ : GoTime).second = 0) :=
  ⟨by decide, by decide,
    c3_amended_date_from_leading_digits "20200101_a.mp4" (some ⟨1999, 5, 5, 1, 2, 3⟩)
      ⟨2020, 1, 1, 0, 0, 0⟩ (by decide) (by decide)⟩
/-- Counterexample to claim C4: two files with the same resolved timestamp
(both stat to 2020-01-01 12:00:00) where the first one's transcode is kept
(sizes 2 → 1, ratio 0.5 < 0.93, Replace): `swapFiles` moves the first output
out of the working directory, so the second file is assigned the *same*
destination name `tmp/20200101_120000.mp4` — the names are not pairwise
distinct. -/
theorem c4_replace_collision_counterexample :
    (processList "out" "tmp" (fun _ => ⟨some ⟨2020, 1, 1, 12, 0, 0⟩, true, 2, 1, 7⟩)
        ["a.mp4", "b.mp4"] ⟨[], []⟩).names
      = ["tmp/20200101_120000.mp4", "tmp/20200101_120000.mp4"]
    ∧ ¬ (processList "out" "tmp" (fun _ => ⟨some ⟨2020, 1, 1, 12, 0, 0⟩, true, 2, 1, 7⟩)
        ["a.mp4", "b.mp4"] ⟨[], []⟩).names.Nodup :=
  ⟨by decide, by decide⟩

/-- Claim C4 as amended: starting from the fresh (empty) working directory,
for files resolving to a common timestamp the worker assigns the candidate
names `<stamp>.mp4`, `<stamp>_0001.mp4`, `<stamp>_0002.mp4`, … in dispatch
order, pairwise distinct — provided every earlier output remains in the
working directory, i.e. every file's retention decision is Discard; when a
Replace moves an earlier same-timestamp output out of the working directory,
a later file is assigned the same name again (see the counterexample). -/
theorem c4_amended_distinct_names_while_outputs_remain
    (outDirName tmpDir : String) (envOf : String → FileEnv) (t0 : GoTime)
    (files : List String) (src : List SrcEntry)
    (hmt : ∀ f ∈ files, getFileModTime f (envOf f).fsMtime = t0)
    (hok : ∀ f ∈ files, (envOf f).ffmpegOk = true)
    (hdisc : ∀ f ∈ files, sizeDecision (envOf f).inSize (envOf f).outSize = Decision.Discard) :
    (processList outDirName tmpDir envOf files ⟨[], src⟩).names
      = (List.range files.length).map (candidate tmpDir (goFormatStamp t0))
    ∧ (processList outDirName tmpDir envOf files ⟨[], src⟩).names.Nodup := by
  have h := processList_discard_names outDirName tmpDir envOf t0 files 0 ⟨[], src⟩
    (by simp) hmt hok hdisc
  have hfun : (fun j => candidate tmpDir (goFormatStamp t0) (0 + j))
      = candidate tmpDir (goFormatStamp t0) :=
    funext fun j => by rw [Nat.zero_add]
  rw [hfun] at h
  exact ⟨h, h ▸ List.Nodup.map (candidate_injective tmpDir (goFormatStamp t0))
    (List.nodup_range files.length)⟩

theorem c4_amended_distinct_names_while_outputs_remain_witness :
    (∀ f ∈ ["a.mp4", "b.mp4"],
      getFileModTime f ((fun _ => (⟨some ⟨2020, 1, 1, 12, 0, 0⟩, true, 100, 95, 7⟩ : FileEnv))
        f).fsMtime = ⟨2020, 1, 1, 12, 0, 0⟩)
    ∧ (∀ f ∈ ["a.mp4", "b.mp4"],
      ((fun _ => (⟨some ⟨2020, 1, 1, 12, 0, 0⟩, true, 100, 95, 7⟩ : FileEnv)) f).ffmpegOk = true)
    ∧ (∀ f ∈ ["a.mp4", "b.mp4"],
      sizeDecision ((fun _ => (⟨some ⟨2020, 1, 1, 12, 0, 0⟩, true, 100, 95, 7⟩ : FileEnv)) f).inSize
        ((fun _ => (⟨some ⟨2020, 1, 1, 12, 0, 0⟩, true, 100, 95, 7⟩ : FileEnv)) f).outSize
        = Decision.Discard)
    ∧ ((processList "out" "tmp" (fun _ => (⟨some ⟨2020, 1, 1, 12, 0, 0⟩, true, 100, 95, 7⟩ : FileEnv))
          ["a.mp4", "b.mp4"] ⟨[], []⟩).names
        = (List.range (["a.mp4", "b.mp4"] : List String).length).map
            (candidate "tmp" (goFormatStamp ⟨2020, 1, 1, 12, 0, 0⟩))
      ∧ (processList "out" "tmp" (fun _ => (⟨some ⟨2020, 1, 1, 12, 0, 0⟩, true, 100, 95, 7⟩ : FileEnv))
          ["a.mp4", "b.mp4"] ⟨[], []⟩).names.Nodup) :=
  ⟨by decide, by decide, by decide,
    c4_amended_distinct_names_while_outputs_remain "out" "tmp"
      (fun _ => (⟨some ⟨2020, 1, 1, 12, 0, 0⟩, true, 100, 95, 7⟩ : FileEnv))
      ⟨2020, 1, 1, 12, 0, 0⟩ ["a.mp4", "b.mp4"] [] (by decide) (by decide) (by decide)⟩

/-- Counterexample to claim C5: the root directory lists fine, but the
non-root, non-hidden subdirectory `sub` cannot be enumerated —
`addFilesToList` hits `log.Fatal` (src/shrink-movies.go:146) and the whole
run aborts, contradicting the claim that a failure confined to a non-root
subdirectory never aborts the batch. -/
theorem c5_subdirectory_failure_counterexample :
    addFilesToList "root" (some (.cons (.badDir "sub") .nil)) = WalkResult.fatal := by
  decide

/-- Claim C5 as amended: a failure to enumerate *any* directory — the root or
any non-hidden subdirectory — is fatal to the run (the recursive
`addFilesToList` calls `log.Fatal` on every `ReadDir` error); a transcode
failure on one file is logged, leaves the filesystem state untouched, and
processing of the remaining files continues, with every listed file still
dispatched. -/
theorem c5_amended_any_unlistable_dir_fatal_transcode_failure_skipped
    (dirPath name : String) (rest : FsTree) (acc : List String) (c : Char) (cs : List Char)
    (hname : name.data = c :: cs) (hc : c ≠ '.')
    (o t : String) (envOf : String → FileEnv) (f : String) (frest : List String) (st : PState)
    (hff : (envOf f).ffmpegOk = false) :
    walkTree dirPath (.cons (.badDir name) rest) acc = WalkResult.fatal
    ∧ (processList o t envOf (f :: frest) st).st = (processList o t envOf frest st).st
    ∧ (processList o t envOf (f :: frest) st).names.length = frest.length + 1 := by
  refine ⟨?_, ?_, ?_⟩
  · simp [walkTree, walkNode, hname, hc]
  · simp [processList, processFile, hff]
  · rw [processList_names_length]
    simp

theorem c5_amended_any_unlistable_dir_fatal_transcode_failure_skipped_witness :
    ("sub" : String).data = 's' :: ['u', 'b']
    ∧ 's' ≠ '.'
    ∧ ((fun _ => (⟨none, false, 2, 1, 7⟩ : FileEnv)) "x.mp4").ffmpegOk = false
    ∧ (walkTree "root" (.cons (.badDir "sub") .nil) [] = WalkResult.fatal
      ∧ (processList "out" "tmp" (fun _ => (⟨none, false, 2, 1, 7⟩ : FileEnv))
          ["x.mp4", "y.avi"] ⟨[], []⟩).st
        = (processList "out" "tmp" (fun _ => (⟨none, false, 2, 1, 7⟩ : FileEnv))
          ["y.avi"] ⟨[], []⟩).st
      ∧ (processList "out" "tmp" (fun _ => (⟨none, false, 2, 1, 7⟩ : FileEnv))
          ["x.mp4", "y.avi"] ⟨[], []⟩).names.length = ["y.avi"].length + 1) :=
  ⟨by decide, by decide, by decide,
    c5_amended_any_unlistable_dir_fatal_transcode_failure_skipped "root" "sub" .nil [] 's'
      ['u', 'b'] (by decide) (by decide) "out" "tmp"
      (fun _ => (⟨none, false, 2, 1, 7⟩ : FileEnv)) "x.mp4" ["y.avi"] ⟨[], []⟩ (by decide)⟩

/-- Claim C6: whenever the retention policy decides Discard the original
source file is left completely untouched (`processFile` then mutates only the
working directory), and running the pipeline over a work list in which every
file fails the 0.93 threshold leaves the source directory byte-for-byte
unchanged — and so does running it a second time (each run starts with a
fresh empty working directory, as `main` creates a new TempDir). -/
theorem c6_discard_leaves_directory_unchanged
    (o t : String) (envOf : String → FileEnv) (files : List String) (src : List SrcEntry)
    (h : ∀ f ∈ files, (envOf f).ffmpegOk = true
      ∧ sizeDecision (envOf f).inSize (envOf f).outSize = Decision.Discard) :
    (∀ f env st, env.ffmpegOk = true →
      sizeDecision env.inSize env.outSize = Decision.Discard →
      (processFile f o t env st).st.src = st.src)
    ∧ (processList o t envOf files ⟨[], src⟩).st.src = src
    ∧ (processList o t envOf files
        ⟨[], (processList o t envOf files ⟨[], src⟩).st.src⟩).st.src = src := by
  have hrun := processList_src_unchanged_of_discard o t envOf files h
  refine ⟨fun f env st hok hd => processFile_src_unchanged_of_discard f o t env st hok hd, ?_, ?_⟩
  · exact hrun ⟨[], src⟩
  · rw [show (processList o t envOf files ⟨[], src⟩).st.src = src from hrun ⟨[], src⟩]
    exact hrun ⟨[], src⟩

theorem c6_discard_leaves_directory_unchanged_witness :
    (∀ f ∈ ["a.mp4"],
      ((fun _ => (⟨none, true, 100, 95, 7⟩ : FileEnv)) f).ffmpegOk = true
      ∧ sizeDecision ((fun _ => (⟨none, true, 100, 95, 7⟩ : FileEnv)) f).inSize
          ((fun _ => (⟨none, true, 100, 95, 7⟩ : FileEnv)) f).outSize = Decision.Discard)
    ∧ ((∀ f env st, env.ffmpegOk = true →
        sizeDecision env.inSize env.outSize = Decision.Discard →
        (processFile f "out" "tmp" env st).st.src = st.src)
      ∧ (processList "out" "tmp" (fun _ => (⟨none, true, 100, 95, 7⟩ : FileEnv))
          ["a.mp4"] ⟨[], [⟨"a.mp4", 42, ⟨2019, 1, 1, 0, 0, 0⟩⟩]⟩).st.src
        = [⟨"a.mp4", 42, ⟨2019, 1, 1, 0, 0, 0⟩⟩]
      ∧ (processList "out" "tmp" (fun _ => (⟨none, true, 100, 95, 7⟩ : FileEnv)) ["a.mp4"]
          ⟨[], (processList "out" "tmp" (fun _ => (⟨none, true, 100, 95, 7⟩ : FileEnv))
            ["a.mp4"] ⟨[], [⟨"a.mp4", 42, ⟨2019, 1, 1, 0, 0, 0⟩⟩]⟩).st.src⟩).st.src
        = [⟨"a.mp4", 42, ⟨2019, 1, 1, 0, 0, 0⟩⟩]) :=
  ⟨by decide,
    c6_discard_leaves_directory_unchanged "out" "tmp"
      (fun _ => (⟨none, true, 100, 95, 7⟩ : FileEnv)) ["a.mp4"]
      [⟨"a.mp4", 42, ⟨2019, 1, 1, 0, 0, 0⟩⟩] (by decide)⟩
/-- Claim C7: for every directory tree (in which every entered directory is
listable and every directory name non-empty, the conditions under which the
walk returns at all), the collected list is exactly the movie files — per the
case-insensitive `IsMovie` test for `.mpg, .mpeg, .avi, .mp4, .3gp, .mov` —
reachable from the root without passing through a subdirectory whose name
begins with `'.'`, in depth-first traversal order, and hence contains no file
lying under such a hidden directory (`specMoviesTree` assigns `[]` to hidden
subtrees). -/
theorem c7_walker_collects_exactly_reachable_movies
    (inDirName : String) (ts : FsTree) (h : goodTree ts = true) :
    addFilesToList inDirName (some ts) = WalkResult.ok (specMoviesTree inDirName ts) := by
  have hw := walkTree_spec inDirName ts [] h
  simpa [addFilesToList] using hw

theorem c7_walker_collects_exactly_reachable_movies_witness :
    goodTree (FsTree.cons (.file "a.mp4")
      (.cons (.dir ".cache" (.cons (.file "b.mp4") .nil))
        (.cons (.dir "sub" (.cons (.file "c.MOV") (.cons (.file "d.txt") .nil))) .nil))) = true
    ∧ addFilesToList "r" (some (FsTree.cons (.file "a.mp4")
        (.cons (.dir ".cache" (.cons (.file "b.mp4") .nil))
          (.cons (.dir "sub" (.cons (.file "c.MOV") (.cons (.file "d.txt") .nil))) .nil))))
      = WalkResult.ok (specMoviesTree "r" (FsTree.cons (.file "a.mp4")
        (.cons (.dir ".cache" (.cons (.file "b.mp4") .nil))
          (.cons (.dir "sub" (.cons (.file "c.MOV") (.cons (.file "d.txt") .nil))) .nil)))) :=
  ⟨by decide, c7_walker_collects_exactly_reachable_movies "r"
    (FsTree.cons (.file "a.mp4")
      (.cons (.dir ".cache" (.cons (.file "b.mp4") .nil))
        (.cons (.dir "sub" (.cons (.file "c.MOV") (.cons (.file "d.txt") .nil))) .nil)))
    (by decide)⟩

/-- Counterexample to claim C8: the first-character test `dirName[0]` at
src/shrink-movies.go:152 is not guarded: on a directory entry with an empty
name the walk performs an out-of-range index (modelled as `.fault`), so the
claimed guard does not exist in the code. -/
theorem c8_empty_name_counterexample :
    walkTree "r" (.cons (.dir "" .nil) .nil) [] = WalkResult.fault := by
  decide

/-- Claim C8 as amended: the hidden-marker test is *unguarded* — an empty
directory name would be dereferenced out of range (see the counterexample) —
but whenever every directory entry name in the tree is non-empty (which
`ioutil.ReadDir` guarantees for real filesystems), no index-out-of-range
access occurs during the walk. -/
theorem c8_amended_first_char_test_unguarded
    (dirPath : String) (ts : FsTree) (acc : List String) (h : treeNamesOk ts = true) :
    walkTree dirPath ts acc ≠ WalkResult.fault :=
  walkTree_no_fault dirPath ts acc h

theorem c8_amended_first_char_test_unguarded_witness :
    treeNamesOk (FsTree.cons (.dir "sub" (.cons (.file "c.mov") .nil))
      (.cons (.badDir ".hid") .nil)) = true
    ∧ walkTree "r" (FsTree.cons (.dir "sub" (.cons (.file "c.mov") .nil))
        (.cons (.badDir ".hid") .nil)) [] ≠ WalkResult.fault :=
  ⟨by decide, c8_amended_first_char_test_unguarded "r"
    (FsTree.cons (.dir "sub" (.cons (.file "c.mov") .nil)) (.cons (.badDir ".hid") .nil)) []
    (by decide)⟩

/-- Claim C9: the value of the `-o` output-directory flag never influences
the program's behaviour: `processFile` binds but never reads `outDir`, and
two whole runs differing only in the output-directory argument perform
identical traversal, transcoding, retention and file-replacement actions. -/
theorem c9_output_flag_never_influences_run
    (inDirName o1 o2 tmpDir : String) (rootListing : Option FsTree)
    (envOf : String → FileEnv) (src : List SrcEntry) :
    (∀ (f : String) (env : FileEnv) (st : PState),
      processFile f o1 tmpDir env st = processFile f o2 tmpDir env st)
    ∧ runProcess inDirName o1 tmpDir rootListing envOf src
      = runProcess inDirName o2 tmpDir rootListing envOf src := by
  refine ⟨fun f env st => rfl, ?_⟩
  unfold runProcess
  cases addFilesToList inDirName rootListing with
  | fatal => rfl
  | fault => rfl
  | ok files =>
    simp only
    rw [processList_outDir_irrelevant o1 o2 tmpDir envOf files ⟨[], src⟩]

/-- Counterexample to claim C10: on a path whose `os.Open` fails,
`getFileSize` does not return a size — `file.Stat()` on the nil handle
safely yields a nil `FileInfo` (its error is discarded), and the final
`fileInfo.Size()` dereferences that nil interface: a runtime panic, modelled
as `none`. -/
theorem c10_open_failure_counterexample :
    getFileSize ⟨false, 5⟩ = none := rfl

/-- Claim C10 as amended: `getFileSize` is *not* total on unopenable paths:
for every environment in which `os.Open` fails, the error is logged but the
subsequent `fileInfo.Size()` call faults on the nil `FileInfo` interface
instead of returning a size. -/
theorem c10_amended_open_failure_faults (env : OpenEnv) (h : env.openOk = false) :
    getFileSize env = none := by
  simp [getFileSize, goFileStat, h]

theorem c10_amended_open_failure_faults_witness :
    (⟨false, 5⟩ : OpenEnv).openOk = false ∧ getFileSize ⟨false, 5⟩ = none :=
  ⟨by decide, c10_amended_open_failure_faults ⟨false, 5⟩ (by decide)⟩
